import Mathlib

/-!
Verification of the concurrency-eval-go object-store scanner
(`internal/handler.go`) against its specification.

The handler lists keys under a prefix, dispatches one retrieval task per
key through a bounded semaphore, and aggregates either the key count or
the minimum-listing-index match for a search substring.  The embedding
below models the S3 collaborator as an abstract `Store` (listing outcome
plus a per-key fetch outcome), translates `get`, the coordinator update
performed inside the mutex, `processor`, `HandleRequest` and
`maxConcurrency` directly from the source, and models an arbitrary task
completion schedule as a permutation of the task-outcome list.  Wall-clock
timing (`Response.Time`) is not modelled.
-/

deriving instance DecidableEq for Except

namespace ConcurrencyEval

/-- Go `math.MaxInt` on a 64-bit platform, the initial value of `bestIdx`
in `processor`. -/
def maxIntGo : Nat := 2 ^ 63 - 1

/-- The incoming request (`Event` struct in handler.go): bucket name,
key prefix (`Folder`) and the optional search substring (`Find`).
`find = none` selects count mode, `find = some f` selects search mode. -/
structure Event where
  s3BucketName : String
  folder : String
  find : Option String

/-- The response shape (`Response` struct); the wall-clock `Time` field is
outside the embedding. -/
structure Response where
  lang : String
  detail : String
  result : Option String
deriving DecidableEq

/-- Abstract state of the object store as observed through the two client
calls the handler makes for one request: the outcome of
`ListObjectsV2` (an error or the list of keys under the prefix, in
listing order) and the outcome of `GetObject` plus the full body read for
each key (an error or the object content). -/
structure Store where
  listKeys : Except String (List String)
  fetch : String → Except String String

/-- Char-list helper: `leadsWith p s` holds when `p` is an initial segment
of `s`; building block for Go `strings.Contains`. -/
def leadsWith : List Char → List Char → Bool
  | [], _ => true
  | _ :: _, [] => false
  | p :: ps, c :: cs => p == c && leadsWith ps cs

/-- Char-list helper: `occursInChars p s` holds when `p` occurs as a
contiguous segment of `s` (at any position). -/
def occursInChars : List Char → List Char → Bool
  | ps, [] => leadsWith ps []
  | ps, c :: cs => leadsWith ps (c :: cs) || occursInChars ps cs

/-- Go `strings.Contains s pat`: exact, case-sensitive substring test. -/
def goContains (s pat : String) : Bool :=
  occursInChars pat.data s.data

/-- The retrieval task `get` from handler.go, with the S3 client replaced
by the abstract per-key fetch outcome.  A fetch or read error is returned
as an error; in count mode (`find = none`) a successful read yields no
match value; in search mode it yields `some key` exactly when the content
contains the search substring. -/
def get (fetch : String → Except String String) (key : String)
    (find : Option String) : Except String (Option String) :=
  match fetch key with
  | .error e => .error e
  | .ok content =>
    match find with
    | none => .ok none
    | some f => if goContains content f then .ok (some key) else .ok none

/-- One task outcome: the listing index of the key, the key itself, and
the result of `get` for it. -/
structure TaskOutcome where
  idx : Nat
  key : String
  res : Except String (Option String)
deriving DecidableEq

/-- The task outcomes produced by the `for i, key := range keys` loop of
`processor`: exactly one per listed key, carrying its listing index. -/
def taskOutcomes (store : Store) (find : Option String)
    (keys : List String) : List TaskOutcome :=
  (List.range keys.length).map fun i =>
    { idx := i
      key := keys.getD i ""
      res := get store.fetch (keys.getD i "") find }

/-- The coordinator update performed by each goroutine of `processor`:
an errored task is logged and contributes nothing; in search mode a
non-nil match lowers `bestIdx`/`bestKey` under the mutex when its listing
index is smaller. -/
def coordStep (searchMode : Bool) (st : Nat × Option String)
    (o : TaskOutcome) : Nat × Option String :=
  match o.res with
  | .error _ => st
  | .ok m =>
    if searchMode && m.isSome then
      if o.idx < st.1 then (o.idx, m) else st
    else st

/-- Fold the coordinator update over task outcomes in a given completion
order, starting from `bestIdx = math.MaxInt`, `bestKey = nil`. -/
def coordinate (searchMode : Bool) (outs : List TaskOutcome) :
    Nat × Option String :=
  outs.foldl (coordStep searchMode) (maxIntGo, none)

/-- `processor` with the task completion order made explicit: after a
successful listing, the coordinator state is folded over the outcomes in
the order `outs`; count mode returns `strconv.Itoa(len(keys))`, search
mode returns `bestKey`. -/
def processorWithOrder (store : Store) (event : Event)
    (outs : List TaskOutcome) : Except String (Option String) :=
  match store.listKeys with
  | .error e => .error e
  | .ok keys =>
    let searchMode := event.find.isSome
    let best := coordinate searchMode outs
    if searchMode then .ok best.2
    else .ok (some (Nat.repr keys.length))

/-- The `processor` function of handler.go: a listing error aborts the
request; otherwise every listed key is fetched and the aggregate result
is computed.  Since the coordinator folds over all outcomes, the
listing-order schedule is used here; `processor_order_irrelevant` below
shows any completion schedule gives the same result. -/
def processor (store : Store) (event : Event) :
    Except String (Option String) :=
  match store.listKeys with
  | .error e => .error e
  | .ok keys =>
    processorWithOrder store event (taskOutcomes store event.find keys)

/-- `HandleRequest`: wraps `processor`, propagating its error unchanged
and otherwise shaping the response (timing field not modelled). -/
def HandleRequest (store : Store) (event : Event) :
    Except String Response :=
  match processor store event with
  | .error e => .error e
  | .ok result => .ok { lang := "go", detail := "aws-sdk-v2", result := result }

/-- Go `strconv.Atoi` digit parsing: value of a decimal digit character. -/
def digitVal (c : Char) : Option Nat :=
  if '0' ≤ c ∧ c ≤ '9' then some (c.toNat - '0'.toNat) else none

/-- Parse a non-empty all-digit char list to its decimal value. -/
def parseDigits (cs : List Char) : Option Nat :=
  if cs.isEmpty then none
  else cs.foldlM (fun acc c => (digitVal c).map fun d => acc * 10 + d) 0

/-- Go `strconv.Atoi`: optional sign, then one or more decimal digits,
failing (with a non-nil error, modelled as `none`) on empty input, any
other character, or a value outside the 64-bit int range. -/
def goAtoi (s : String) : Option Int :=
  match s.data with
  | '+' :: rest =>
    (parseDigits rest).bind fun n =>
      if n ≤ 2 ^ 63 - 1 then some (n : Int) else none
  | '-' :: rest =>
    (parseDigits rest).bind fun n =>
      if n ≤ 2 ^ 63 then some (-(n : Int)) else none
  | l =>
    (parseDigits l).bind fun n =>
      if n ≤ 2 ^ 63 - 1 then some (n : Int) else none

/-- `maxConcurrency` from handler.go, with the `MAX_CONCURRENCY`
environment variable value passed explicitly (`os.Getenv` returns the
empty string when the variable is absent). -/
def maxConcurrency (env : String) : Int :=
  if env = "" then 64
  else
    match goAtoi env with
    | none => 64
    | some n => if n < 1 then 64 else if n > 256 then 256 else n

/-- Whether the stored content of key `k` contains `f`: the per-key match
predicate used to state the search-mode specification. -/
def isMatch (store : Store) (f : String) (k : String) : Bool :=
  match store.fetch k with
  | .error _ => false
  | .ok content => goContains content f

/-- Whether fetching key `k` succeeds. -/
def fetchOk (store : Store) (k : String) : Bool :=
  match store.fetch k with
  | .error _ => false
  | .ok _ => true

/-- A task outcome that updates the search-mode coordinator: its `get`
result is a non-nil match. -/
def isHit (o : TaskOutcome) : Bool :=
  match o.res with
  | .ok (some _) => true
  | _ => false

/-- The match value carried by a task outcome (`none` for errors and
non-matches). -/
def hitVal (o : TaskOutcome) : Option String :=
  match o.res with
  | .ok m => m
  | .error _ => none

/-- The min-index selection the search-mode coordinator computes: the
first hit in the outcome list, or the unchanged state if none. -/
def selectHit (st : Nat × Option String) (outs : List TaskOutcome) :
    Nat × Option String :=
  match outs.find? isHit with
  | none => st
  | some o => (o.idx, hitVal o)

lemma leadsWith_iff (ps cs : List Char) :
    leadsWith ps cs = true ↔ ∃ r, cs = ps ++ r := by
  induction ps generalizing cs with
  | nil => simp [leadsWith]
  | cons p ps ih =>
    cases cs with
    | nil => simp [leadsWith]
    | cons c cs =>
      simp only [leadsWith, Bool.and_eq_true, beq_iff_eq, ih, List.cons_append,
        List.cons.injEq]
      constructor
      · rintro ⟨rfl, r, rfl⟩; exact ⟨r, rfl, rfl⟩
      · rintro ⟨r, rfl, rfl⟩; exact ⟨rfl, r, rfl⟩

lemma occursInChars_iff (ps cs : List Char) :
    occursInChars ps cs = true ↔ ∃ l r, cs = l ++ ps ++ r := by
  induction cs with
  | nil =>
    rw [show occursInChars ps [] = leadsWith ps [] from rfl, leadsWith_iff]
    constructor
    · rintro ⟨r, hr⟩; exact ⟨[], r, by simpa using hr⟩
    · rintro ⟨l, r, hr⟩
      cases l with
      | nil => exact ⟨r, by simpa using hr⟩
      | cons x xs => simp at hr
  | cons c cs ih =>
    rw [show occursInChars ps (c :: cs) =
      (leadsWith ps (c :: cs) || occursInChars ps cs) from rfl]
    rw [Bool.or_eq_true, leadsWith_iff, ih]
    constructor
    · rintro (⟨r, hr⟩ | ⟨l, r, hr⟩)
      · exact ⟨[], r, by simpa using hr⟩
      · exact ⟨c :: l, r, by simp [hr]⟩
    · rintro ⟨l, r, hr⟩
      cases l with
      | nil => exact Or.inl ⟨r, by simpa using hr⟩
      | cons x xs =>
        simp only [List.cons_append, List.cons.injEq] at hr
        exact Or.inr ⟨xs, r, hr.2⟩

lemma occursInChars_nil (cs : List Char) : occursInChars [] cs = true := by
  cases cs <;> simp [occursInChars, leadsWith]

lemma mem_taskOutcomes {store : Store} {f : Option String}
    {keys : List String} {o : TaskOutcome} :
    o ∈ taskOutcomes store f keys ↔
      ∃ i, i < keys.length ∧
        o = ⟨i, keys.getD i "", get store.fetch (keys.getD i "") f⟩ := by
  simp only [taskOutcomes, List.mem_map, List.mem_range]
  constructor
  · rintro ⟨i, hi, rfl⟩; exact ⟨i, hi, rfl⟩
  · rintro ⟨i, hi, rfl⟩; exact ⟨i, hi, rfl⟩

lemma taskOutcomes_idx_inj {store : Store} {f : Option String}
    {keys : List String} {a b : TaskOutcome}
    (ha : a ∈ taskOutcomes store f keys) (hb : b ∈ taskOutcomes store f keys)
    (h : a.idx = b.idx) : a = b := by
  rcases mem_taskOutcomes.1 ha with ⟨i, hi, rfl⟩
  rcases mem_taskOutcomes.1 hb with ⟨j, hj, rfl⟩
  simp only at h
  subst h
  rfl

lemma foldl_coordStep_frozen (sm : Bool) (outs : List TaskOutcome)
    (st : Nat × Option String) (h : ∀ o ∈ outs, st.1 ≤ o.idx) :
    outs.foldl (coordStep sm) st = st := by
  induction outs with
  | nil => rfl
  | cons o rest ih =>
    have hstep : coordStep sm st o = st := by
      obtain ⟨i, k, res⟩ := o
      cases res with
      | error e => rfl
      | ok m =>
        have hni : ¬ i < st.1 := Nat.not_lt.2 (h _ (List.mem_cons_self _ _))
        simp [coordStep, hni]
    rw [List.foldl_cons, hstep]
    exact ih fun o ho => h o (List.mem_cons_of_mem _ ho)

lemma foldl_coordStep_sorted (outs : List TaskOutcome)
    (hs : outs.Pairwise (fun a b => a.idx < b.idx))
    (st : Nat × Option String) (hst : ∀ o ∈ outs, o.idx < st.1) :
    outs.foldl (coordStep true) st = selectHit st outs := by
  induction outs generalizing st with
  | nil => rfl
  | cons o rest ih =>
    obtain ⟨i, k, res⟩ := o
    have hi : i < st.1 := hst _ (List.mem_cons_self _ _)
    have hpair := List.pairwise_cons.1 hs
    cases res with
    | error e =>
      rw [List.foldl_cons, show coordStep true st ⟨i, k, .error e⟩ = st from rfl]
      rw [ih hpair.2 st (fun b hb => hst _ (List.mem_cons_of_mem _ hb))]
      simp [selectHit, List.find?_cons, isHit]
    | ok m =>
      cases m with
      | none =>
        rw [List.foldl_cons,
          show coordStep true st ⟨i, k, .ok none⟩ = st from rfl]
        rw [ih hpair.2 st (fun b hb => hst _ (List.mem_cons_of_mem _ hb))]
        simp [selectHit, List.find?_cons, isHit]
      | some x =>
        rw [List.foldl_cons]
        have hstep : coordStep true st ⟨i, k, .ok (some x)⟩ = (i, some x) := by
          simp [coordStep, hi]
        rw [hstep]
        rw [foldl_coordStep_frozen true rest (i, some x)
          (fun b hb => Nat.le_of_lt (hpair.1 b hb))]
        simp [selectHit, List.find?_cons, isHit, hitVal]

lemma isHit_task (store : Store) (f : String) (i : Nat) (k : String) :
    isHit ⟨i, k, get store.fetch k (some f)⟩ = isMatch store f k := by
  unfold isHit get isMatch
  cases hf : store.fetch k with
  | error e => rfl
  | ok c => cases hgc : goContains c f <;> simp [hgc]

lemma get_search_cases (fetch : String → Except String String)
    (k f : String) :
    (∃ e, get fetch k (some f) = .error e) ∨ get fetch k (some f) = .ok none ∨
      get fetch k (some f) = .ok (some k) := by
  unfold get
  cases fetch k with
  | error e => exact Or.inl ⟨e, rfl⟩
  | ok c => cases hgc : goContains c f <;> simp [hgc]

lemma hitVal_task (store : Store) (f : String) (i : Nat) (k : String)
    (h : isHit ⟨i, k, get store.fetch k (some f)⟩ = true) :
    hitVal ⟨i, k, get store.fetch k (some f)⟩ = some k := by
  rcases get_search_cases store.fetch k f with ⟨e, hg⟩ | hg | hg
  · rw [hg] at h; simp [isHit] at h
  · rw [hg] at h; simp [isHit] at h
  · rw [hg]; rfl

lemma find?_range_getD (keys : List String) (p : String → Bool) :
    (((List.range keys.length).find? fun i => p (keys.getD i "")).map
      fun i => keys.getD i "") = keys.find? p := by
  induction keys with
  | nil => rfl
  | cons k ks ih =>
    rw [List.length_cons, List.range_succ_eq_map, List.find?_cons,
      List.find?_cons]
    have h0 : (k :: ks).getD 0 "" = k := rfl
    rw [h0]
    cases hpk : p k with
    | true => rfl
    | false =>
      rw [List.find?_map, Option.map_map]
      have hcomp1 : ((fun i => p ((k :: ks).getD i "")) ∘ Nat.succ) =
          fun i => p (ks.getD i "") := rfl
      have hcomp2 : ((fun i => (k :: ks).getD i "") ∘ Nat.succ) =
          fun i => ks.getD i "" := rfl
      rw [hcomp1, hcomp2]
      exact ih

lemma coordinate_search (store : Store) (f : String) (keys : List String)
    (hlen : keys.length ≤ maxIntGo) :
    (coordinate true (taskOutcomes store (some f) keys)).2 =
      keys.find? fun k => isMatch store f k := by
  have hsorted : (taskOutcomes store (some f) keys).Pairwise
      (fun a b => a.idx < b.idx) :=
    List.Pairwise.map _ (fun a b h => h) (List.pairwise_lt_range keys.length)
  have hbound : ∀ o ∈ taskOutcomes store (some f) keys, o.idx < maxIntGo := by
    intro o ho
    rcases mem_taskOutcomes.1 ho with ⟨i, hi, rfl⟩
    exact lt_of_lt_of_le hi hlen
  unfold coordinate
  rw [foldl_coordStep_sorted _ hsorted _ hbound]
  unfold selectHit taskOutcomes
  rw [List.find?_map]
  have hq : (isHit ∘ fun i =>
      (⟨i, keys.getD i "", get store.fetch (keys.getD i "") (some f)⟩ :
        TaskOutcome)) = fun i => isMatch store f (keys.getD i "") :=
    funext fun i => isHit_task store f i (keys.getD i "")
  rw [hq]
  cases hfind : (List.range keys.length).find?
      (fun i => isMatch store f (keys.getD i "")) with
  | none =>
    have := find?_range_getD keys (fun k => isMatch store f k)
    rw [hfind] at this
    simp only [Option.map_none'] at this
    simp [← this]
  | some i =>
    have hkey := find?_range_getD keys (fun k => isMatch store f k)
    rw [hfind] at hkey
    simp only [Option.map_some'] at hkey
    have hpi : isMatch store f (keys.getD i "") = true := by
      have hx := List.find?_some hfind
      simpa using hx
    simp only [Option.map_some']
    rw [← hkey]
    exact hitVal_task store f i (keys.getD i "")
      ((isHit_task store f i (keys.getD i "")).trans hpi)

lemma isMatch_empty (store : Store) (k : String) :
    isMatch store "" k = fetchOk store k := by
  unfold isMatch fetchOk
  cases store.fetch k with
  | error e => rfl
  | ok c => exact occursInChars_nil c.data

lemma processor_search (store : Store) (ev : Event) (f : String)
    (keys : List String) (hf : ev.find = some f)
    (hl : store.listKeys = .ok keys) (hlen : keys.length ≤ maxIntGo) :
    processor store ev = .ok (keys.find? fun k => isMatch store f k) := by
  rw [← coordinate_search store f keys hlen]
  simp [processor, processorWithOrder, hl, hf]

lemma processor_eq (store : Store) (ev : Event) (keys : List String)
    (hl : store.listKeys = .ok keys) :
    processor store ev =
      .ok (if ev.find.isSome
        then (coordinate ev.find.isSome (taskOutcomes store ev.find keys)).2
        else some (Nat.repr keys.length)) := by
  rcases h : ev.find with _ | f <;>
    simp [processor, processorWithOrder, hl, h]

lemma coordStep_comm (sm : Bool) (a b : TaskOutcome)
    (hab : a.idx = b.idx → a = b) (st : Nat × Option String) :
    coordStep sm (coordStep sm st a) b = coordStep sm (coordStep sm st b) a := by
  obtain ⟨ia, ka, ra⟩ := a
  obtain ⟨ib, kb, rb⟩ := b
  cases ra with
  | error e => rfl
  | ok ma =>
    cases rb with
    | error e => rfl
    | ok mb =>
      cases sm with
      | false => rfl
      | true =>
        cases ma with
        | none => rfl
        | some xa =>
          cases mb with
          | none => rfl
          | some xb =>
            by_cases hii : ia = ib
            · have hEq := hab (by simpa using hii)
              rw [hEq]
            · rcases st with ⟨j, m⟩
              simp only [coordStep, Option.isSome_some, Bool.and_self,
                if_true, Bool.and_true]
              by_cases h1 : ia < j <;> by_cases h2 : ib < j <;>
                simp only [h1, h2, if_true, if_false, ite_true, ite_false] <;>
                split_ifs <;> first | rfl | omega

lemma coordinate_perm (sm : Bool) (outs base : List TaskOutcome)
    (hperm : outs.Perm base)
    (hinj : ∀ a ∈ base, ∀ b ∈ base, a.idx = b.idx → a = b) :
    coordinate sm outs = coordinate sm base := by
  unfold coordinate
  exact hperm.foldl_eq'
    (fun x hx y hy z =>
      coordStep_comm sm x y (hinj x (hperm.subset hx) y (hperm.subset hy)) z)
    (maxIntGo, none)

/-- Concrete store of the worked example in the specification:
keys `[k0, k1, k2]` with contents `abc`, `xfindx`, `findhere`. -/
def exStore : Store :=
  { listKeys := .ok ["k0", "k1", "k2"]
    fetch := fun k =>
      if k = "k0" then .ok "abc"
      else if k = "k1" then .ok "xfindx"
      else if k = "k2" then .ok "findhere"
      else .error "no such key" }

/-- Search-mode request for the worked example (`find = "find"`). -/
def exEventFind : Event := ⟨"bucket", "folder", some "find"⟩

/-- Count-mode request for the worked example (`find = nil`). -/
def exEventCount : Event := ⟨"bucket", "folder", none⟩

/-- Store whose listing call fails. -/
def errStore : Store :=
  { listKeys := .error "boom", fetch := fun _ => .ok "" }

/-- Store with an empty listing and failing fetches. -/
def emptyStore : Store :=
  { listKeys := .ok [], fetch := fun _ => .error "nope" }

/-- Store where the first key's fetch fails and the second succeeds. -/
def exStoreFail : Store :=
  { listKeys := .ok ["a", "b"]
    fetch := fun k => if k = "a" then .error "boom" else .ok "content" }

/-- C1: in search mode, with a successful listing, the processor result is
the key at the minimum listing index among listed keys whose fetched
content contains the search substring (`List.find?` returns exactly the
first, i.e. minimum-index, satisfying key), and `none` when no listed
key's content contains it. -/
theorem search_min_index_match (store : Store) (ev : Event) (f : String)
    (keys : List String) (hf : ev.find = some f)
    (hl : store.listKeys = .ok keys) (hlen : keys.length ≤ maxIntGo) :
    processor store ev = .ok (keys.find? fun k => isMatch store f k) :=
  processor_search store ev f keys hf hl hlen

/-- Witness for C1 on the specification's worked example: the result is
`k1`, the lowest-index key whose content contains `find`. -/
theorem search_min_index_match_witness :
    processor exStore exEventFind = .ok (some "k1") := by
  have h := search_min_index_match exStore exEventFind "find"
    ["k0", "k1", "k2"] rfl rfl (by decide)
  rw [h]
  decide

/-- C2: in count mode, with a successful listing, the processor result is
the decimal rendering of the number of listed keys, for every per-key
fetch outcome and for every task completion order. -/
theorem count_equals_listed (store : Store) (ev : Event)
    (keys : List String) (hf : ev.find = none)
    (hl : store.listKeys = .ok keys) :
    processor store ev = .ok (some (Nat.repr keys.length)) ∧
    ∀ outs : List TaskOutcome,
      processorWithOrder store ev outs = .ok (some (Nat.repr keys.length)) := by
  constructor
  · simp [processor, processorWithOrder, hl, hf]
  · intro outs
    simp [processorWithOrder, hl, hf]

/-- Witness for C2 on the worked example: three listed keys give `3`,
even though search-content varies per key. -/
theorem count_equals_listed_witness :
    processor exStore exEventCount = .ok (some "3") := by
  have h := (count_equals_listed exStore exEventCount
    ["k0", "k1", "k2"] rfl rfl).1
  rw [h]
  decide

/-- C3: `HandleRequest` fails exactly when the listing call fails; the
listing error is forwarded unchanged, and a successful listing always
yields a response regardless of per-key fetch outcomes. -/
theorem error_iff_listing_fails (store : Store) (ev : Event) :
    ((∃ e, HandleRequest store ev = .error e) ↔
      (∃ e, store.listKeys = .error e)) ∧
    (∀ e, store.listKeys = .error e → HandleRequest store ev = .error e) ∧
    (∀ keys, store.listKeys = .ok keys →
      ∃ r : Response, HandleRequest store ev = .ok r) := by
  cases hlk : store.listKeys with
  | error e =>
    have hh : HandleRequest store ev = .error e := by
      simp [HandleRequest, processor, hlk]
    refine ⟨⟨fun _ => ⟨e, rfl⟩, fun _ => ⟨e, hh⟩⟩, ?_, ?_⟩
    · intro e' he'
      obtain rfl : e = e' := by simpa using he'
      exact hh
    · intro keys hk
      exact absurd hk (by simp)
  | ok keys =>
    have hp := processor_eq store ev keys hlk
    have hh : HandleRequest store ev = .ok
        { lang := "go", detail := "aws-sdk-v2"
          result := if ev.find.isSome
            then (coordinate ev.find.isSome (taskOutcomes store ev.find keys)).2
            else some (Nat.repr keys.length) } := by
      simp [HandleRequest, hp]
    refine ⟨⟨?_, ?_⟩, ?_, ?_⟩
    · rintro ⟨e, he⟩
      rw [hh] at he
      exact absurd he (by simp)
    · rintro ⟨e, he⟩
      exact absurd he (by simp)
    · intro e he
      exact absurd he (by simp)
    · intro keys' hk
      exact ⟨_, hh⟩

/-- Witness for C3: a failing listing propagates its error verbatim. -/
theorem error_iff_listing_fails_witness :
    HandleRequest errStore exEventCount = .error "boom" :=
  (error_iff_listing_fails errStore exEventCount).2.1 "boom" rfl

/-- C4: for every value of `MAX_CONCURRENCY` (absent is the empty string),
`maxConcurrency` stays in `[1, 256]`; absent, unparsable or below-1 values
give the default 64, and parsed values above 256 are clamped to 256. -/
theorem max_concurrency_clamped :
    (∀ env : String, 1 ≤ maxConcurrency env ∧ maxConcurrency env ≤ 256) ∧
    maxConcurrency "" = 64 ∧
    (∀ v : String, goAtoi v = none → maxConcurrency v = 64) ∧
    (∀ v : String, ∀ n : Int, goAtoi v = some n → n < 1 →
      maxConcurrency v = 64) ∧
    (∀ v : String, ∀ n : Int, goAtoi v = some n → 256 < n →
      maxConcurrency v = 256) := by
  refine ⟨fun env => ?_, rfl, fun v hv => ?_, fun v n hv hn => ?_,
    fun v n hv hn => ?_⟩
  · unfold maxConcurrency
    split_ifs with h1
    · omega
    · cases hg : goAtoi env with
      | none => simp
      | some n =>
        simp only
        split_ifs <;> omega
  · unfold maxConcurrency
    split_ifs with h1
    · rfl
    · simp [hv]
  · unfold maxConcurrency
    split_ifs with h1
    · rfl
    · simp only [hv]
      rw [if_pos hn]
  · unfold maxConcurrency
    split_ifs with h1
    · subst h1
      rw [show goAtoi "" = none from rfl] at hv
      cases hv
    · simp only [hv]
      rw [if_neg (by omega), if_pos hn]

/-- Witness for C4 at concrete environment values: absent, non-numeric,
zero, negative and above-range values. -/
theorem max_concurrency_clamped_witness :
    maxConcurrency "" = 64 ∧ maxConcurrency "abc" = 64 ∧
    maxConcurrency "0" = 64 ∧ maxConcurrency "-3" = 64 ∧
    maxConcurrency "1000" = 256 ∧ 1 ≤ maxConcurrency "7" :=
  ⟨max_concurrency_clamped.2.1,
    max_concurrency_clamped.2.2.1 "abc" (by decide),
    max_concurrency_clamped.2.2.2.1 "0" 0 (by decide) (by decide),
    max_concurrency_clamped.2.2.2.1 "-3" (-3) (by decide) (by decide),
    max_concurrency_clamped.2.2.2.2 "1000" 1000 (by decide) (by decide),
    (max_concurrency_clamped.1 "7").1⟩

/-- C5: with an empty listing, count mode returns `"0"`, search mode
returns `none`, no task outcome is produced, and the result does not
depend on the fetch side of the store at all. -/
theorem empty_listing_boundary (store : Store) (ev : Event)
    (hl : store.listKeys = .ok []) :
    (ev.find = none → processor store ev = .ok (some "0")) ∧
    (∀ f, ev.find = some f → processor store ev = .ok none) ∧
    taskOutcomes store ev.find [] = [] ∧
    (∀ store2 : Store, store2.listKeys = .ok [] →
      processor store ev = processor store2 ev) := by
  refine ⟨fun hf => ?_, fun f hf => ?_, rfl, fun store2 hl2 => ?_⟩
  · simp [processor, processorWithOrder, hl, hf]
    rfl
  · simp [processor, processorWithOrder, hl, hf, taskOutcomes, coordinate]
  · rcases hf : ev.find with _ | f <;>
      simp [processor, processorWithOrder, hl, hl2, hf, taskOutcomes,
        coordinate]

/-- Witness for C5 with a store whose every fetch fails: zero keys give
count `"0"` and an absent search result. -/
theorem empty_listing_boundary_witness :
    processor emptyStore exEventCount = .ok (some "0") ∧
    processor emptyStore exEventFind = .ok none :=
  ⟨(empty_listing_boundary emptyStore exEventCount rfl).1 rfl,
    (empty_listing_boundary emptyStore exEventFind rfl).2.1 "find" rfl⟩

/-- C6: in search mode, when the fetch of `key` yields `content`, `get`
reports a match exactly when `content` contains the search substring as
an exact contiguous character subsequence (the characterization of
`goContains`), and on a match it returns that key; a non-matching
content yields `ok none`. -/
theorem get_match_iff_substring (fetch : String → Except String String)
    (key f content : String) (h : fetch key = .ok content) :
    (get fetch key (some f) = .ok (some key) ↔ goContains content f = true) ∧
    (goContains content f = false → get fetch key (some f) = .ok none) ∧
    (goContains content f = true ↔
      ∃ l r : List Char, content.data = l ++ f.data ++ r) := by
  refine ⟨?_, ?_, occursInChars_iff f.data content.data⟩
  · unfold get
    rw [h]
    cases hgc : goContains content f <;> simp [hgc]
  · intro hgc
    unfold get
    rw [h]
    simp [hgc]

/-- Witness for C6: content `xfindx` matches substring `find` and `get`
returns the key. -/
theorem get_match_iff_substring_witness :
    get (fun _ => .ok "xfindx") "k1" (some "find") = .ok (some "k1") := by
  have h := get_match_iff_substring (fun _ => .ok "xfindx") "k1" "find"
    "xfindx" rfl
  exact h.1.2 (by decide)

/-- C7: the aggregate result is deterministic in the store and request:
folding the coordinator over any two completion orders of the task
outcomes (any permutations, e.g. those produced by different pool sizes)
gives the same result, and it equals the result of `processor`, which
uses the listing-order schedule of pool size 1. -/
theorem schedule_independent (store : Store) (ev : Event)
    (keys : List String) (outs₁ outs₂ : List TaskOutcome)
    (hl : store.listKeys = .ok keys)
    (h1 : outs₁.Perm (taskOutcomes store ev.find keys))
    (h2 : outs₂.Perm (taskOutcomes store ev.find keys)) :
    processorWithOrder store ev outs₁ = processorWithOrder store ev outs₂ ∧
    processorWithOrder store ev outs₁ = processor store ev := by
  have hinj : ∀ a ∈ taskOutcomes store ev.find keys,
      ∀ b ∈ taskOutcomes store ev.find keys, a.idx = b.idx → a = b :=
    fun a ha b hb => taskOutcomes_idx_inj ha hb
  have hc1 := coordinate_perm ev.find.isSome outs₁ _ h1 hinj
  have hc2 := coordinate_perm ev.find.isSome outs₂ _ h2 hinj
  constructor
  · simp [processorWithOrder, hl, hc1, hc2]
  · simp [processor, processorWithOrder, hl, hc1]

/-- Witness for C7: processing the worked example's outcomes in reversed
completion order yields the same result as the listing order. -/
theorem schedule_independent_witness :
    processorWithOrder exStore exEventFind
      (taskOutcomes exStore (some "find") ["k0", "k1", "k2"]).reverse =
    processor exStore exEventFind :=
  (schedule_independent exStore exEventFind ["k0", "k1", "k2"]
    (taskOutcomes exStore (some "find") ["k0", "k1", "k2"]).reverse
    (taskOutcomes exStore (some "find") ["k0", "k1", "k2"])
    rfl (List.reverse_perm _) (List.Perm.refl _)).2

/-- C8: exactly one task outcome is produced per listed key — the outcome
list has the same length as the key list, and its `i`-th element is the
outcome of fetching the `i`-th listed key. -/
theorem one_task_per_key (store : Store) (f : Option String)
    (keys : List String) :
    (taskOutcomes store f keys).length = keys.length ∧
    ∀ i, i < keys.length →
      (taskOutcomes store f keys)[i]? =
        some ⟨i, keys.getD i "", get store.fetch (keys.getD i "") f⟩ := by
  constructor
  · simp [taskOutcomes]
  · intro i hi
    simp [taskOutcomes, List.getElem?_range hi]

/-- Witness for C8 on the worked example: three outcomes for three keys,
and outcome 1 is the match of key `k1`. -/
theorem one_task_per_key_witness :
    (taskOutcomes exStore (some "find") ["k0", "k1", "k2"]).length = 3 ∧
    (taskOutcomes exStore (some "find") ["k0", "k1", "k2"])[1]? =
      some ⟨1, "k1", .ok (some "k1")⟩ := by
  have h := one_task_per_key exStore (some "find") ["k0", "k1", "k2"]
  refine ⟨h.1, ?_⟩
  rw [h.2 1 (by decide)]
  decide

/-- C9: with the empty search substring every successfully fetched object
matches, so the result is the lowest-index key whose fetch succeeded, and
absent exactly when no fetch succeeds (or the listing is empty). -/
theorem empty_find_first_fetch_ok (store : Store) (ev : Event)
    (keys : List String) (hf : ev.find = some "")
    (hl : store.listKeys = .ok keys) (hlen : keys.length ≤ maxIntGo) :
    processor store ev = .ok (keys.find? fun k => fetchOk store k) := by
  have h := processor_search store ev "" keys hf hl hlen
  have hp : (fun k => isMatch store "" k) = fun k => fetchOk store k :=
    funext fun k => isMatch_empty store k
  rw [h, hp]

/-- Witness for C9: key `a` fails to fetch, key `b` succeeds, so the
empty substring selects `b`. -/
theorem empty_find_first_fetch_ok_witness :
    processor exStoreFail ⟨"bucket", "folder", some ""⟩ = .ok (some "b") := by
  have h := empty_find_first_fetch_ok exStoreFail
    ⟨"bucket", "folder", some ""⟩ ["a", "b"] rfl rfl (by decide)
  rw [h]
  decide

/-- The coordinator's best-match invariant: `bestKey` is set exactly when
`bestIdx` has dropped below its initial value `math.MaxInt`, and a set
`bestKey` is the key at listing index `bestIdx` whose content matched. -/
def CoordInv (store : Store) (f : String) (keys : List String)
    (st : Nat × Option String) : Prop :=
  (st.2.isSome = true ↔ st.1 < maxIntGo) ∧
  ∀ k, st.2 = some k →
    st.1 < keys.length ∧ k = keys.getD st.1 "" ∧ isMatch store f k = true

/-- C10: the initial coordinator state satisfies the best-match invariant,
and each task outcome's update preserves it while never increasing
`bestIdx`. -/
theorem coordinator_invariant (store : Store) (f : String)
    (keys : List String) (hlen : keys.length ≤ maxIntGo) :
    CoordInv store f keys (maxIntGo, none) ∧
    ∀ st o, o ∈ taskOutcomes store (some f) keys →
      CoordInv store f keys st →
      CoordInv store f keys (coordStep true st o) ∧
        (coordStep true st o).1 ≤ st.1 := by
  constructor
  · exact ⟨by simp, fun k hk => by cases hk⟩
  · intro st o ho hinv
    rcases mem_taskOutcomes.1 ho with ⟨i, hi, rfl⟩
    rcases get_search_cases store.fetch (keys.getD i "") f with
      ⟨e, hg⟩ | hg | hg
    · have hstep : coordStep true st
          ⟨i, keys.getD i "", get store.fetch (keys.getD i "") (some f)⟩ =
          st := by
        simp only [coordStep]
        rw [hg]
      rw [hstep]
      exact ⟨hinv, le_refl _⟩
    · have hstep : coordStep true st
          ⟨i, keys.getD i "", get store.fetch (keys.getD i "") (some f)⟩ =
          st := by
        simp only [coordStep]
        rw [hg]
        simp
      rw [hstep]
      exact ⟨hinv, le_refl _⟩
    · by_cases hlt : i < st.1
      · have hstep : coordStep true st
            ⟨i, keys.getD i "", get store.fetch (keys.getD i "") (some f)⟩ =
            (i, some (keys.getD i "")) := by
          simp only [coordStep]
          rw [hg]
          simp [hlt]
        rw [hstep]
        have hm : isMatch store f (keys.getD i "") = true := by
          rw [← isHit_task store f i (keys.getD i "")]
          unfold isHit
          rw [hg]
        refine ⟨⟨⟨fun _ => lt_of_lt_of_le hi hlen, fun _ => rfl⟩, ?_⟩,
          Nat.le_of_lt hlt⟩
        intro k hk
        obtain rfl : keys.getD i "" = k := by simpa using hk
        exact ⟨hi, rfl, hm⟩
      · have hstep : coordStep true st
            ⟨i, keys.getD i "", get store.fetch (keys.getD i "") (some f)⟩ =
            st := by
          simp only [coordStep]
          rw [hg]
          simp [hlt]
        rw [hstep]
        exact ⟨hinv, le_refl _⟩

/-- Witness for C10: updating the initial state with the matching outcome
of `k1` keeps the invariant. -/
theorem coordinator_invariant_witness :
    CoordInv exStore "find" ["k0", "k1", "k2"]
      (coordStep true (maxIntGo, none) ⟨1, "k1", .ok (some "k1")⟩) := by
  have h := coordinator_invariant exStore "find" ["k0", "k1", "k2"]
    (by decide)
  exact (h.2 (maxIntGo, none) ⟨1, "k1", .ok (some "k1")⟩ (by decide) h.1).1

end ConcurrencyEval
